import Mathlib

/-!
Shallow embedding of the CodeWeaver2 repository (an Express server orchestrating
three Gemini calls plus a React client) and verification of the frozen claims
about it.  Strings are modelled as Lean `String`/`List Char`; the external
generative model is an oracle parameter; the in-memory `Map` of version
histories is an association list.
-/

namespace CodeWeaver2

/-! ## Character classes and JS string helpers -/

/-- ASCII upper-case letter, the regex class `[A-Z]`. -/
def isUpperAZ (c : Char) : Bool := 'A' ≤ c && c ≤ 'Z'

/-- ASCII lower-case letter, the regex class `[a-z]`. -/
def isLowerAZ (c : Char) : Bool := 'a' ≤ c && c ≤ 'z'

/-- ASCII letter, the regex class `[a-zA-Z]`. -/
def isAsciiAlpha (c : Char) : Bool := isUpperAZ c || isLowerAZ c

/-- ASCII digit `[0-9]`. -/
def isDigitC (c : Char) : Bool := '0' ≤ c && c ≤ '9'

/-- The characters removed by JavaScript `String.prototype.trim`
(WhiteSpace and LineTerminator code points). -/
def isJsWs (c : Char) : Bool :=
  [' ', '\t', '\n', '\x0b', '\x0c', '\r', ' ', ' ',
   ' ', ' ', ' ', ' ', ' ', ' ', ' ',
   ' ', ' ', ' ', ' ', ' ', ' ', ' ',
   ' ', '　', '﻿'].contains c

/-- JS `trim()` on a character list. -/
def jsTrimL (l : List Char) : List Char :=
  ((l.dropWhile isJsWs).reverse.dropWhile isJsWs).reverse

/-- JS `trim()`. -/
def jsTrim (s : String) : String := String.mk (jsTrimL s.data)

/-- JS `String.prototype.startsWith` (on lists). -/
def startsWithL (l pre : List Char) : Bool := pre.isPrefixOf l

/-- JS `String.prototype.includes`: `pat` occurs as a contiguous substring of `s`. -/
def includesL (pat : List Char) : List Char → Bool
  | [] => pat.isEmpty
  | c :: rest => pat.isPrefixOf (c :: rest) || includesL pat rest

/-- JS `includes` on strings. -/
def strIncludes (s pat : String) : Bool := includesL pat.data s.data

/-! ## The component-tag scanner

`validateComponents` in `src/server/aiAgent.js` collects, via
`code.matchAll(/<([A-Z][a-zA-Z]*)/g)`, every capture group: a `<` followed by an
ASCII upper-case letter and then the maximal run of ASCII letters.  We embed the
left-to-right, non-overlapping scan of that global regex as a state machine:
`normal` (looking for `<`), `afterLt` (just saw `<`, need `[A-Z]`) and
`inWord acc` (inside the `[a-zA-Z]*` run, `acc` holds the capture reversed). -/

inductive ScanState where
  | normal : ScanState
  | afterLt : ScanState
  | inWord (acc : List Char) : ScanState

/-- One pass of the global regex `/<([A-Z][a-zA-Z]*)/g`, collecting captures. -/
def scanTagsAux : ScanState → List Char → List String
  | .normal, [] => []
  | .afterLt, [] => []
  | .inWord acc, [] => [String.mk acc.reverse]
  | .normal, c :: rest =>
      if c = '<' then scanTagsAux .afterLt rest else scanTagsAux .normal rest
  | .afterLt, c :: rest =>
      if isUpperAZ c then scanTagsAux (.inWord [c]) rest
      else if c = '<' then scanTagsAux .afterLt rest
      else scanTagsAux .normal rest
  | .inWord acc, c :: rest =>
      if isAsciiAlpha c then scanTagsAux (.inWord (c :: acc)) rest
      else
        String.mk acc.reverse ::
          (if c = '<' then scanTagsAux .afterLt rest else scanTagsAux .normal rest)

/-- `[...code.matchAll(/<([A-Z][a-zA-Z]*)/g)].map(match => match[1])`:
the raw (not deduplicated) list of capture groups, in match order. -/
def usedComponentsRaw (code : String) : List String :=
  scanTagsAux .normal code.data

/-! ## validateComponents -/

/-- `Object.keys(COMPONENT_LIBRARY)` in `src/server/aiAgent.js`
(object-literal insertion order). -/
def allowedComponents : List String :=
  ["Button", "Card", "Input", "Table", "Modal", "Sidebar", "Navbar", "Chart"]

/-- `[...new Set(xs)]`: deduplication keeping first occurrences, in order
(JS `Set` iterates in insertion order). -/
def dedupFirstAux (seen : List String) : List String → List String
  | [] => []
  | x :: xs =>
      if seen.contains x then dedupFirstAux seen xs
      else x :: dedupFirstAux (x :: seen) xs

/-- `[...new Set(xs)]`. -/
def dedupFirst (xs : List String) : List String := dedupFirstAux [] xs

/-- The object returned by `validateComponents`. -/
structure Validation where
  valid : Bool
  allowedComponents : List String
  usedComponents : List String
  invalidComponents : List String
  deriving DecidableEq, Repr

/-- `validateComponents` from `src/server/aiAgent.js` (lines 330–343). -/
def validateComponents (code : String) : Validation :=
  let used := usedComponentsRaw code
  let invalid := used.filter (fun comp => !(allowedComponents.contains comp))
  { valid := invalid.length = 0
    allowedComponents := allowedComponents
    usedComponents := dedupFirst used
    invalidComponents := invalid }

/-! ## JSON values and `JSON.parse`

`plannerAgent` ends in `JSON.parse(jsonText)`.  We embed `JSON.parse` as a
total, fuel-driven recursive-descent parser for the JSON grammar.  Numbers are
kept as their validated lexeme (the repository never computes with them). -/

inductive Json where
  | null : Json
  | bool (b : Bool) : Json
  | num (lexeme : String) : Json
  | str (s : String) : Json
  | arr (elems : List Json) : Json
  | obj (members : List (String × Json)) : Json

/-- JSON insignificant whitespace. -/
def isJsonWs (c : Char) : Bool := c = ' ' || c = '\t' || c = '\n' || c = '\r'

/-- Skip JSON whitespace. -/
def skipWs (l : List Char) : List Char := l.dropWhile isJsonWs

/-- Decode a one-character string escape (`\"`, `\\`, `\/`, `\b`, `\f`,
`\n`, `\r`, `\t`). -/
def simpleEscape (c : Char) : Option Char :=
  if c = '\"' then some '\"'
  else if c = '\\' then some '\\'
  else if c = '/' then some '/'
  else if c = 'b' then some '\x08'
  else if c = 'f' then some '\x0c'
  else if c = 'n' then some '\n'
  else if c = 'r' then some '\r'
  else if c = 't' then some '\t'
  else none

/-- Value of a hex digit, as in `\uXXXX` escapes. -/
def hexVal (h : Char) : Option Nat :=
  if isDigitC h then some (h.toNat - 48)
  else if 'a' ≤ h && h ≤ 'f' then some (h.toNat - 87)
  else if 'A' ≤ h && h ≤ 'F' then some (h.toNat - 55)
  else none

/-- Parse the body of a JSON string literal (the opening quote already
consumed); `acc` holds the decoded characters reversed. -/
def parseStrRest (acc : List Char) : List Char → Except String (String × List Char)
  | [] => .error "Unterminated string in JSON"
  | c :: rest =>
      if c = '\"' then .ok (String.mk acc.reverse, rest)
      else if c = '\\' then
        match rest with
        | [] => .error "Unexpected end of JSON input"
        | e :: rest2 =>
            if e = 'u' then
              match rest2 with
              | h1 :: h2 :: h3 :: h4 :: rest3 =>
                  match hexVal h1, hexVal h2, hexVal h3, hexVal h4 with
                  | some a, some b, some cc, some d =>
                      parseStrRest
                        (Char.ofNat (((a * 16 + b) * 16 + cc) * 16 + d) :: acc) rest3
                  | _, _, _, _ => .error "Bad Unicode escape"
              | _ => .error "Bad Unicode escape"
            else
              match simpleEscape e with
              | some d => parseStrRest (d :: acc) rest2
              | none => .error "Bad escaped character"
      else if c.toNat < 32 then .error "Bad control character in string literal"
      else parseStrRest (c :: acc) rest

/-- Parse a JSON number starting at the head of `l`; returns the lexeme. -/
def parseNum (l : List Char) : Except String (String × List Char) :=
  let (sign, l1) :=
    match l with
    | '-' :: r => (['-'], r)
    | _ => (([] : List Char), l)
  match l1 with
  | [] => .error "Unexpected end of JSON input"
  | c :: r =>
      if !(isDigitC c) then .error "Unexpected token in JSON"
      else
        let (intPart, r1) :=
          if c = '0' then ([c], r)
          else (c :: r.takeWhile isDigitC, r.dropWhile isDigitC)
        let (fracPart, r2) :=
          match r1 with
          | '.' :: d :: rr =>
              if isDigitC d then
                ('.' :: d :: rr.takeWhile isDigitC, rr.dropWhile isDigitC)
              else (([] : List Char), r1)
          | _ => (([] : List Char), r1)
        if fracPart.isEmpty ∧ r1.head? = some '.' then
          .error "Unterminated fractional number in JSON"
        else
          let expRes : Except String (List Char × List Char) :=
            match r2 with
            | e :: rr =>
                if e = 'e' ∨ e = 'E' then
                  let (sgn, rr1) :=
                    match rr with
                    | s :: rr' => if s = '+' ∨ s = '-' then ([s], rr') else ([], rr)
                    | [] => ([], rr)
                  match rr1 with
                  | d :: _ =>
                      if isDigitC d then
                        .ok (e :: (sgn ++ rr1.takeWhile isDigitC), rr1.dropWhile isDigitC)
                      else .error "Exponent part is missing a number in JSON"
                  | [] => .error "Exponent part is missing a number in JSON"
                else .ok ([], r2)
            | [] => .ok ([], r2)
          match expRes with
          | .error e => .error e
          | .ok (expPart, r3) =>
              .ok (String.mk (sign ++ intPart ++ fracPart ++ expPart), r3)

mutual

/-- Parse one JSON value (fuel-driven recursive descent). -/
def parseVal : Nat → List Char → Except String (Json × List Char)
  | 0, _ => .error "JSON nesting too deep"
  | fuel + 1, l =>
      match skipWs l with
      | [] => .error "Unexpected end of JSON input"
      | c :: rest =>
          if c = '\"' then
            match parseStrRest [] rest with
            | .ok (s, r) => .ok (.str s, r)
            | .error e => .error e
          else if c = '\x7b' then
            match skipWs rest with
            | '\x7d' :: r => .ok (.obj [], r)
            | r => parseObjRest fuel r []
          else if c = '[' then
            match skipWs rest with
            | ']' :: r => .ok (.arr [], r)
            | r => parseArrRest fuel r []
          else if c = 't' then
            match rest with
            | 'r' :: 'u' :: 'e' :: r => .ok (.bool true, r)
            | _ => .error "Unexpected token in JSON"
          else if c = 'f' then
            match rest with
            | 'a' :: 'l' :: 's' :: 'e' :: r => .ok (.bool false, r)
            | _ => .error "Unexpected token in JSON"
          else if c = 'n' then
            match rest with
            | 'u' :: 'l' :: 'l' :: r => .ok (.null, r)
            | _ => .error "Unexpected token in JSON"
          else if c = '-' ∨ isDigitC c then
            match parseNum (c :: rest) with
            | .ok (s, r) => .ok (.num s, r)
            | .error e => .error e
          else .error "Unexpected token in JSON"

/-- Parse the members of an object after `{` (next token not `}`). -/
def parseObjRest :
    Nat → List Char → List (String × Json) → Except String (Json × List Char)
  | 0, _, _ => .error "JSON nesting too deep"
  | fuel + 1, l, acc =>
      match skipWs l with
      | '\"' :: rest =>
          match parseStrRest [] rest with
          | .error e => .error e
          | .ok (k, r1) =>
              match skipWs r1 with
              | ':' :: r2 =>
                  match parseVal fuel r2 with
                  | .error e => .error e
                  | .ok (v, r3) =>
                      match skipWs r3 with
                      | ',' :: r4 => parseObjRest fuel r4 (acc ++ [(k, v)])
                      | '\x7d' :: r4 => .ok (.obj (acc ++ [(k, v)]), r4)
                      | _ => .error "Expected comma or brace after property value"
              | _ => .error "Expected colon after property name"
      | _ => .error "Expected property name or brace in JSON"

/-- Parse the elements of an array after `[` (next token not `]`). -/
def parseArrRest : Nat → List Char → List Json → Except String (Json × List Char)
  | 0, _, _ => .error "JSON nesting too deep"
  | fuel + 1, l, acc =>
      match parseVal fuel l with
      | .error e => .error e
      | .ok (v, r1) =>
          match skipWs r1 with
          | ',' :: r2 => parseArrRest fuel r2 (acc ++ [v])
          | ']' :: r2 => .ok (.arr (acc ++ [v]), r2)
          | _ => .error "Expected comma or bracket after array element"

end

/-- `JSON.parse`: a full parse of the string, allowing trailing whitespace only. -/
def jsonParse (s : String) : Except String Json :=
  match parseVal (s.length + 2) s.data with
  | .error e => .error e
  | .ok (v, rest) =>
      if (skipWs rest).isEmpty then .ok v
      else .error "Unexpected non-whitespace character after JSON"

/-! ## Markdown fence stripping

`plannerAgent` post-processes the model text with
`replace(/```json\n?/g, '')` / `replace(/```\n?/g, '')` (when the trimmed text
starts with a fence) and `generatorAgent` with `replace(/```[a-z]*\n?/g, '')`
followed by `replace(/```\n?$/g, '')`.  A global `replace` with the empty
replacement scans left to right, removing each non-overlapping match and
continuing after it; we embed that as a fuelled scan (`fuel = length` always
suffices because each removal consumes at least one character). -/

/-- Drop one optional leading newline (the `\n?` of a fence pattern). -/
def dropNl : List Char → List Char
  | '\n' :: r => r
  | l => l

/-- One left-to-right pass of `s.replace(pat, '')` where `step` returns, when
the pattern matches at the current position, the rest of the input after the
match. -/
def stripAllAux (step : List Char → Option (List Char)) :
    Nat → List Char → List Char
  | 0, l => l
  | _ + 1, [] => []
  | fuel + 1, c :: rest =>
      match step (c :: rest) with
      | some r => stripAllAux step fuel r
      | none => c :: stripAllAux step fuel rest

/-- `s.replace(pat, '')` for a pattern given by `step`. -/
def stripAll (step : List Char → Option (List Char)) (l : List Char) : List Char :=
  stripAllAux step l.length l

/-- Match of `/```json\n?/` at the current position. -/
def stepJsonFence (l : List Char) : Option (List Char) :=
  if startsWithL l "```json".data then some (dropNl (l.drop 7)) else none

/-- Match of `/```\n?/` at the current position. -/
def stepTicks (l : List Char) : Option (List Char) :=
  if startsWithL l "```".data then some (dropNl (l.drop 3)) else none

/-- Match of `/```[a-z]*\n?/` at the current position. -/
def stepTicksLang (l : List Char) : Option (List Char) :=
  if startsWithL l "```".data then
    some (dropNl ((l.drop 3).dropWhile isLowerAZ))
  else none

/-- `code.replace(/```\n?$/g, '')`: remove a single trailing fence
(`$` anchors at the very end of the string in JavaScript). -/
def stripEndFence (l : List Char) : List Char :=
  if startsWithL l.reverse ['\n', '`', '`', '`'] then (l.reverse.drop 4).reverse
  else if startsWithL l.reverse ['`', '`', '`'] then (l.reverse.drop 3).reverse
  else l

/-- The first conditional of the planner clean-up (aiAgent.js lines 166–174). -/
def plannerPass1 (l : List Char) : List Char :=
  if startsWithL l "```json".data
  then stripAll stepTicks (stripAll stepJsonFence l) else l

/-- The second conditional of the planner clean-up, applied to the already
updated text. -/
def plannerPass2 (l : List Char) : List Char :=
  if startsWithL l "```".data then stripAll stepTicks l else l

/-- The response clean-up in `plannerAgent` (aiAgent.js lines 166–174):
trim, then if the text starts with ` ```json ` remove globally all
` ```json `-fences and then all ` ``` `-fences; then if the (updated) text
still starts with ` ``` ` remove globally all ` ``` `-fences. -/
def plannerClean (s : String) : String :=
  String.mk (plannerPass2 (plannerPass1 (jsTrimL s.data)))

/-- The response clean-up in `generatorAgent` (aiAgent.js lines 226–231):
trim, then if the text starts with ` ``` ` remove globally all fences with an
optional lower-case language tag, then remove a trailing bare fence. -/
def generatorClean (s : String) : String :=
  String.mk (if startsWithL (jsTrimL s.data) "```".data
             then stripEndFence (stripAll stepTicksLang (jsTrimL s.data))
             else jsTrimL s.data)

/-! ## The three agents and the orchestrator `generateUI`

Each agent sends one prompt to the external model and post-processes the raw
response text.  The external model is an oracle: `Oracles` fixes, for the one
request being handled, the raw outcome of each agent's `generateContent` call
(`Except.error e` models a thrown error, from model acquisition or the API
call).  Each agent run also records the call it made, so that theorems can
speak about order and number of model calls. -/

structure Oracles where
  plannerResp : Except String String
  generatorResp : Json → Except String String
  explainerResp : Json → String → Except String String

/-- A record of one agent invocation, with the data it was given. -/
inductive AgentCall where
  | planner (userIntent : String) (existingCode : Option String)
  | generator (plan : Json) (existingCode : Option String)
  | explainer (plan : Json) (code : String) (userIntent : String)

/-- `plannerAgent`: one model call, fence strip, `JSON.parse`; every failure in
its `try` block is rethrown as `Planning failed: ...`. -/
def plannerAgent (o : Oracles) (userIntent : String) (existingCode : Option String) :
    Except String Json × List AgentCall :=
  (match o.plannerResp with
   | .error e => .error ("Planning failed: " ++ e)
   | .ok raw =>
       match jsonParse (plannerClean raw) with
       | .ok v => .ok v
       | .error e => .error ("Planning failed: " ++ e),
   [.planner userIntent existingCode])

/-- `generatorAgent`: one model call, trim and fence strip; failures are
rethrown as `Code generation failed: ...`. -/
def generatorAgent (o : Oracles) (plan : Json) (existingCode : Option String) :
    Except String String × List AgentCall :=
  (match o.generatorResp plan with
   | .error e => .error ("Code generation failed: " ++ e)
   | .ok raw => .ok (generatorClean raw),
   [.generator plan existingCode])

/-- `explainerAgent`: one model call, trim; failures are rethrown as
`Explanation failed: ...`. -/
def explainerAgent (o : Oracles) (plan : Json) (code : String) (userIntent : String) :
    Except String String × List AgentCall :=
  (match o.explainerResp plan code with
   | .error e => .error ("Explanation failed: " ++ e)
   | .ok raw => .ok (jsTrim raw),
   [.explainer plan code userIntent])

/-- The catch block of `generateUI` rewrites three recognisable error messages
into friendlier ones and passes every other message through. -/
def errorMessageFor (e : String) : String :=
  if strIncludes e "API key" then
    "Invalid API key. Please check your Gemini API key in server/aiAgent.js"
  else if strIncludes e "404" then
    "Model not found. The Gemini API models may have changed. Check available models at: https://ai.google.dev/models"
  else if strIncludes e "quota" then
    "API quota exceeded. Please check your Gemini API usage limits."
  else e

/-- The value returned by `generateUI`. -/
inductive GenResult where
  | success (plan : Json) (code : String) (explanation : String) (timestamp : String)
  | failure (error : String) (fullError : String)

/-- `generateUI` (aiAgent.js lines 275–324): planner, then generator on the
plan, then explainer on plan and code; any thrown error stops the pipeline and
is turned into `{success: false, error, fullError}`.  `now` stands for
`new Date().toISOString()`.  The second component is the list of model calls
made, in order. -/
def generateUI (o : Oracles) (userIntent : String) (existingCode : Option String)
    (now : String) : GenResult × List AgentCall :=
  match plannerAgent o userIntent existingCode with
  | (.error e, t1) => (.failure (errorMessageFor e) e, t1)
  | (.ok plan, t1) =>
      match generatorAgent o plan existingCode with
      | (.error e, t2) => (.failure (errorMessageFor e) e, t1 ++ t2)
      | (.ok code, t2) =>
          match explainerAgent o plan code userIntent with
          | (.error e, t3) => (.failure (errorMessageFor e) e, t1 ++ t2 ++ t3)
          | (.ok explanation, t3) =>
              (.success plan code explanation now, t1 ++ t2 ++ t3)

/-! ## The Express server (src/server/index.js)

`versionHistory` is a `Map` from session id to an array of version entries; we
embed it as an association list (`Map` iterates in insertion order, and the
handlers only get and set whole lists).  Request-body fields are `Option`s
(`none` = absent); `if (!x)` on a string field is falsy exactly for an absent
field or the empty string. -/

/-- One entry pushed into a session's history by `POST /api/generate`. -/
structure Entry where
  version : Nat
  userIntent : String
  code : String
  explanation : String
  plan : Json
  timestamp : String
  validation : Validation

/-- The in-memory `versionHistory` map. -/
def VHistory := List (String × List Entry)

/-- `versionHistory.get(k)` (also covers `has`). -/
def mapGet (m : VHistory) (k : String) : Option (List Entry) :=
  match m with
  | [] => none
  | (k', v) :: rest => if k' = k then some v else mapGet rest k

/-- `versionHistory.set(k, v)`: update in place, or append a new key. -/
def mapSet (m : VHistory) (k : String) (v : List Entry) : VHistory :=
  match m with
  | [] => [(k, v)]
  | (k', v') :: rest => if k' = k then (k, v) :: rest else (k', v') :: mapSet rest k v

/-- JS truthiness of an optional string field (`undefined`, `null` and `''`
are falsy). -/
def jsTruthy : Option String → Bool
  | none => false
  | some s => !(s = "")

/-- JS `parseInt` with no radix argument: leading whitespace, optional sign,
`0x`/`0X` switches to hexadecimal, longest valid digit prefix, `none` = NaN. -/
def jsParseInt (s : String) : Option Int :=
  let l := s.data.dropWhile isJsWs
  let (neg, l1) :=
    match l with
    | '-' :: r => (true, r)
    | '+' :: r => (false, r)
    | _ => (false, l)
  let (digits, radix) :=
    match l1 with
    | '0' :: 'x' :: r => (r.takeWhile (fun c => (hexVal c).isSome), 16)
    | '0' :: 'X' :: r => (r.takeWhile (fun c => (hexVal c).isSome), 16)
    | _ => (l1.takeWhile isDigitC, 10)
  if digits.isEmpty then none
  else
    let n := digits.foldl (fun acc c => acc * radix + ((hexVal c).getD 0)) 0
    some (if neg then -(n : Int) else (n : Int))

/-- The response sent by a route handler, as one flat record of the status and
the optional JSON-body fields the handlers of index.js ever emit. -/
structure ApiResponse where
  status : Nat
  error : Option String := none
  success : Option Bool := none
  plan : Option Json := none
  code : Option String := none
  explanation : Option String := none
  timestamp : Option String := none
  validation : Option Validation := none
  version : Option Nat := none
  sessionId : Option String := none
  versions : Option (List (Nat × String × String × Validation)) := none
  entry : Option Entry := none

/-- `POST /api/generate` (index.js lines 19–77).  `o` and `now` stand for the
external model and the clock; the three body fields are optional. -/
def postGenerate (o : Oracles) (now : String)
    (userIntent existingCode sessionId : Option String) (st : VHistory) :
    ApiResponse × VHistory :=
  if !(jsTruthy userIntent) then
    ({ status := 400, error := some "userIntent is required" }, st)
  else
    let ui := userIntent.getD ""
    match (generateUI o ui existingCode now).1 with
    | .failure err _ => ({ status := 500, error := some err }, st)
    | .success plan code explanation ts =>
        let validation := validateComponents code
        let st' :=
          if jsTruthy sessionId then
            let sid := sessionId.getD ""
            let versions := (mapGet st sid).getD []
            let pushed := versions ++
              [{ version := versions.length + 1, userIntent := ui, code := code,
                 explanation := explanation, plan := plan, timestamp := ts,
                 validation := validation }]
            mapSet st sid (if pushed.length > 20 then pushed.drop 1 else pushed)
          else st
        let ver :=
          match sessionId with
          | none => 1
          | some sid =>
              match mapGet st' sid with
              | none => 1
              | some vs => if vs.length = 0 then 1 else vs.length
        ({ status := 200, success := some true, plan := some plan,
           code := some code, explanation := some explanation,
           timestamp := some ts, validation := some validation,
           version := some ver }, st')

/-- `GET /api/history/:sessionId` (index.js lines 83–96): summaries
`(version, userIntent, timestamp, validation)` of the stored entries, in
storage order; the empty list for an unknown session. -/
def getHistory (sessionId : String) (st : VHistory) : ApiResponse × VHistory :=
  let history := (mapGet st sessionId).getD []
  ({ status := 200, sessionId := some sessionId,
     versions := some (history.map fun v =>
       (v.version, v.userIntent, v.timestamp, v.validation)) }, st)

/-- `GET /api/version/:sessionId/:version` (index.js lines 102–114): the first
stored entry whose `version` equals `parseInt(version)`, else 404. -/
def getVersion (sessionId versionParam : String) (st : VHistory) :
    ApiResponse × VHistory :=
  let history := (mapGet st sessionId).getD []
  let found :=
    match jsParseInt versionParam with
    | none => none
    | some n => history.find? (fun v => (v.version : Int) = n)
  match found with
  | none => ({ status := 404, error := some "Version not found" }, st)
  | some v => ({ status := 200, entry := some v }, st)

/-- `POST /api/validate` (index.js lines 120–129). -/
def postValidate (code : Option String) (st : VHistory) : ApiResponse × VHistory :=
  if !(jsTruthy code) then
    ({ status := 400, error := some "code is required" }, st)
  else
    let v := validateComponents (code.getD "")
    ({ status := 200, validation := some v }, st)

/-- A request to any of the server's routes. -/
inductive ApiRequest where
  | generate (o : Oracles) (now : String)
      (userIntent existingCode sessionId : Option String)
  | history (sessionId : String)
  | version (sessionId versionParam : String)
  | validate (code : Option String)

/-- Dispatch one request against the server state. -/
def handle : ApiRequest → VHistory → ApiResponse × VHistory
  | .generate o now ui ec sid, st => postGenerate o now ui ec sid st
  | .history sid, st => getHistory sid st
  | .version sid v, st => getVersion sid v st
  | .validate c, st => postValidate c st

/-! ## LivePreview (src/client/src/components/LivePreview.jsx)

When the function-body regex matches, LivePreview compiles the body with
`new Function('React', 'useState', 'useEffect', ...Object.keys(ComponentLibrary),
body)` and applies it to
`(React, React.useState, React.useEffect, ...Object.values(ComponentLibrary))`.
`ComponentLibrary` is the `import * as` namespace object of
ComponentLibrary.jsx, whose keys (per the ECMAScript module-namespace ordering)
are the exported names in code-unit sorted order, and whose values are the
corresponding component functions. -/

/-- The names exported by ComponentLibrary.jsx, as enumerated by
`Object.keys` on the module namespace object (code-unit sorted). -/
def componentLibraryExports : List String :=
  ["Button", "Card", "Chart", "Input", "Modal", "Navbar", "Sidebar", "Table"]

/-- A tag for each runtime value LivePreview injects into the compiled
function: `React`, the two hooks, or a library component (by name, from
`Object.values` of the namespace object in the same ordering as its keys). -/
inductive InjectedValue where
  | react : InjectedValue
  | useStateHook : InjectedValue
  | useEffectHook : InjectedValue
  | libComponent (name : String) : InjectedValue
  deriving DecidableEq

/-- The parameter-name list of the `new Function` call (LivePreview.jsx
lines 36–41). -/
def livePreviewParamNames : List String :=
  ["React", "useState", "useEffect"] ++ componentLibraryExports

/-- The argument list the compiled function is applied to (LivePreview.jsx
lines 42–47). -/
def livePreviewArgs : List InjectedValue :=
  [.react, .useStateHook, .useEffectHook] ++ componentLibraryExports.map .libComponent

/-! ## Helper lemmas -/

theorem contains_iff_mem (l : List String) (x : String) : l.contains x = true ↔ x ∈ l := by
  simp [List.contains, List.elem_iff]

theorem mem_dedupFirstAux (seen l : List String) (x : String) :
    x ∈ dedupFirstAux seen l ↔ x ∈ l ∧ x ∉ seen := by
  induction l generalizing seen with
  | nil => simp [dedupFirstAux]
  | cons y ys ih =>
      unfold dedupFirstAux
      by_cases hy : y ∈ seen
      · rw [if_pos ((contains_iff_mem seen y).mpr hy), ih]
        constructor
        · rintro ⟨hx, hns⟩
          exact ⟨List.mem_cons_of_mem _ hx, hns⟩
        · rintro ⟨hx, hns⟩
          rcases List.mem_cons.mp hx with rfl | hx'
          · exact absurd hy hns
          · exact ⟨hx', hns⟩
      · have hc : ¬ (seen.contains y = true) := fun hcc =>
          hy ((contains_iff_mem seen y).mp hcc)
        rw [if_neg hc, List.mem_cons, ih]
        constructor
        · rintro (rfl | ⟨hx, hns⟩)
          · exact ⟨List.mem_cons_self _ _, hy⟩
          · refine ⟨List.mem_cons_of_mem _ hx, fun hxs => ?_⟩
            exact hns (List.mem_cons_of_mem _ hxs)
        · rintro ⟨hx, hns⟩
          by_cases hxy : x = y
          · exact Or.inl hxy
          · rcases List.mem_cons.mp hx with rfl | hx'
            · exact Or.inl rfl
            · refine Or.inr ⟨hx', fun hmem => ?_⟩
              rcases List.mem_cons.mp hmem with h' | h'
              · exact hxy h'
              · exact hns h'

theorem dedupFirstAux_sublist (seen l : List String) :
    (dedupFirstAux seen l).Sublist l := by
  induction l generalizing seen with
  | nil => simp [dedupFirstAux]
  | cons y ys ih =>
      unfold dedupFirstAux
      by_cases hy : seen.contains y = true
      · rw [if_pos hy]
        exact (ih seen).trans (List.sublist_cons_self y ys)
      · rw [if_neg hy]
        exact (ih (y :: seen)).cons₂ y

theorem dedupFirstAux_nodup (seen l : List String) :
    (dedupFirstAux seen l).Nodup := by
  induction l generalizing seen with
  | nil => simp [dedupFirstAux]
  | cons y ys ih =>
      unfold dedupFirstAux
      by_cases hy : seen.contains y = true
      · rw [if_pos hy]; exact ih seen
      · rw [if_neg hy]
        refine List.nodup_cons.mpr ⟨fun hmem => ?_, ih (y :: seen)⟩
        exact ((mem_dedupFirstAux _ _ _).mp hmem).2 (List.mem_cons_self y seen)

theorem mapGet_mapSet_self (m : VHistory) (k : String) (v : List Entry) :
    mapGet (mapSet m k v) k = some v := by
  induction m with
  | nil => simp [mapGet, mapSet]
  | cons p rest ih =>
      obtain ⟨k', v'⟩ := p
      by_cases h : k' = k
      · subst h; simp [mapGet, mapSet]
      · simp [mapGet, mapSet, h, ih]

theorem mapGet_mapSet_other (m : VHistory) (k t : String) (v : List Entry)
    (h : t ≠ k) : mapGet (mapSet m k v) t = mapGet m t := by
  have hkt : ¬ (k = t) := fun hh => h hh.symm
  induction m with
  | nil => simp [mapGet, mapSet, hkt]
  | cons p rest ih =>
      obtain ⟨k', v'⟩ := p
      by_cases hk : k' = k
      · subst hk
        simp [mapGet, mapSet, hkt]
      · by_cases ht : k' = t
        · subst ht
          simp [mapGet, mapSet, hk]
        · simp [mapGet, mapSet, hk, ht, ih]

/-! ## C2: validateComponents is a pure regex whitelist check -/

/-- C2: for every string `code`, `validateComponents code` collects the
captures of `/<([A-Z][a-zA-Z]*)/g` (embedded as `usedComponentsRaw`); its
`usedComponents` is that list deduplicated keeping first occurrences (no
duplicates, order-preserving sublist, same members); its `invalidComponents`
are exactly the collected names not among the eight library keys;
`valid = true` iff `invalidComponents` is empty; and a code string with no
match — in particular the empty string — is valid. -/
theorem validateComponents_characterization (code : String) :
    ((validateComponents code).valid = true ↔
        (validateComponents code).invalidComponents = [])
    ∧ (validateComponents code).invalidComponents =
        (usedComponentsRaw code).filter
          (fun c => !(allowedComponents.contains c))
    ∧ (∀ x, x ∈ (validateComponents code).invalidComponents ↔
        x ∈ usedComponentsRaw code ∧ x ∉ allowedComponents)
    ∧ (validateComponents code).usedComponents = dedupFirst (usedComponentsRaw code)
    ∧ (validateComponents code).usedComponents.Nodup
    ∧ (validateComponents code).usedComponents.Sublist (usedComponentsRaw code)
    ∧ (∀ x, x ∈ (validateComponents code).usedComponents ↔
        x ∈ usedComponentsRaw code)
    ∧ (validateComponents code).allowedComponents =
        ["Button", "Card", "Input", "Table", "Modal", "Sidebar", "Navbar", "Chart"]
    ∧ (usedComponentsRaw code = [] → (validateComponents code).valid = true)
    ∧ usedComponentsRaw "" = [] ∧ (validateComponents "").valid = true := by
  refine ⟨?_, rfl, ?_, rfl, ?_, ?_, ?_, rfl, ?_, rfl, rfl⟩
  · simp [validateComponents, List.length_eq_zero]
  · intro x
    simp only [validateComponents, List.mem_filter, Bool.not_eq_true',
      Bool.not_eq_true]
    constructor
    · rintro ⟨h1, h2⟩
      refine ⟨h1, fun hmem => ?_⟩
      rw [(contains_iff_mem _ _).mpr hmem] at h2
      cases h2
    · rintro ⟨h1, h2⟩
      refine ⟨h1, ?_⟩
      rw [Bool.eq_false_iff]
      intro hc
      exact h2 ((contains_iff_mem _ _).mp hc)
  · exact dedupFirstAux_nodup [] _
  · exact dedupFirstAux_sublist [] _
  · intro x
    rw [show (validateComponents code).usedComponents
        = dedupFirstAux [] (usedComponentsRaw code) from rfl,
      mem_dedupFirstAux]
    simp
  · intro h
    simp [validateComponents, h]

/-- Witness for C2: concrete evaluations of the characterized behaviour. -/
theorem validateComponents_characterization_witness :
    (validateComponents "").valid = true ∧ (validateComponents "<Foo />").valid = false := by
  refine ⟨(validateComponents_characterization "").2.2.2.2.2.2.2.2.1 rfl, ?_⟩
  decide

/-! ## C3: the symbols injected by LivePreview -/

/-- C3: the `new Function` parameters of LivePreview are exactly `React`,
`useState`, `useEffect` and the exported names of the component library, and
the compiled function is applied to exactly the corresponding values, in the
same order; no other symbol appears in the parameter list. -/
theorem livePreview_injected_symbols :
    livePreviewParamNames = ["React", "useState", "useEffect"] ++ componentLibraryExports
    ∧ componentLibraryExports =
        ["Button", "Card", "Chart", "Input", "Modal", "Navbar", "Sidebar", "Table"]
    ∧ livePreviewArgs.length = livePreviewParamNames.length
    ∧ livePreviewParamNames.zip livePreviewArgs =
        [("React", InjectedValue.react), ("useState", InjectedValue.useStateHook),
         ("useEffect", InjectedValue.useEffectHook)]
          ++ componentLibraryExports.map (fun n => (n, InjectedValue.libComponent n))
    ∧ (∀ p ∈ livePreviewParamNames,
        p = "React" ∨ p = "useState" ∨ p = "useEffect" ∨ p ∈ componentLibraryExports) := by
  refine ⟨rfl, rfl, rfl, rfl, ?_⟩
  decide

/-! ## Concrete oracles for witnesses and counterexamples -/

/-- An external model that answers the three prompts with fixed texts. -/
def constOracles (plannerRaw generatorRaw explainerRaw : String) : Oracles :=
  { plannerResp := .ok plannerRaw
    generatorResp := fun _ => .ok generatorRaw
    explainerResp := fun _ _ => .ok explainerRaw }

/-- An external model whose planner call throws `e`. -/
def failingPlannerOracles (e : String) : Oracles :=
  { plannerResp := .error e
    generatorResp := fun _ => .error e
    explainerResp := fun _ _ => .error e }

/-! ## C10: error responses leave the history untouched -/

/-- C10: whenever `POST /api/generate` answers 400 (falsy `userIntent`) or 500
(failed generation), the version-history map is returned unchanged — no entry
appended, no session key created. -/
theorem postGenerate_error_leaves_history (o : Oracles) (now : String)
    (userIntent existingCode sessionId : Option String) (st : VHistory)
    (h : (postGenerate o now userIntent existingCode sessionId st).1.status = 400
       ∨ (postGenerate o now userIntent existingCode sessionId st).1.status = 500) :
    (postGenerate o now userIntent existingCode sessionId st).2 = st := by
  by_cases hui : jsTruthy userIntent = true
  · cases hgen : (generateUI o (userIntent.getD "") existingCode now).1 with
    | failure err full =>
        unfold postGenerate
        rw [hui, if_neg (by simp)]
        simp only [hgen]
    | success plan code expl ts =>
        unfold postGenerate at h
        rw [hui, if_neg (by simp)] at h
        simp only [hgen] at h
        simp at h
  · have hui' : jsTruthy userIntent = false := by
      rwa [Bool.not_eq_true] at hui
    unfold postGenerate
    rw [hui', if_pos (by simp)]

/-- Witness for C10: a request without `userIntent` gets a 400 and the map
(here a one-session map) is unchanged. -/
theorem postGenerate_error_leaves_history_witness :
    (postGenerate (constOracles "x" "y" "z") "t0" none none none []).2 = [] :=
  postGenerate_error_leaves_history (constOracles "x" "y" "z") "t0" none none none []
    (Or.inl rfl)

/-! ## C1: is invalid code ever returned as a success?

The handler logs a warning on invalid components but deliberately returns the
code anyway (`// We'll allow it but warn the user`), so the claim fails. -/

/-- C1 counterexample: a generation whose code uses the non-library component
`Foo` is still answered with HTTP 200 carrying that code, although its
validation is not valid. -/
theorem generate_returns_invalid_code_as_success :
    (postGenerate (constOracles "\x7b\x7d" "<Foo />" "done") "t0"
        (some "make a foo") none (some "s1") []).1.status = 200
    ∧ (postGenerate (constOracles "\x7b\x7d" "<Foo />" "done") "t0"
        (some "make a foo") none (some "s1") []).1.code = some "<Foo />"
    ∧ (validateComponents "<Foo />").valid = false
    ∧ (postGenerate (constOracles "\x7b\x7d" "<Foo />" "done") "t0"
        (some "make a foo") none (some "s1") []).1.validation
        = some (validateComponents "<Foo />") := by
  refine ⟨rfl, rfl, by decide, rfl⟩

/-- C1 amended: `POST /api/generate` returns HTTP 200 with the generated code
whenever generation succeeds, *regardless* of the validation verdict; the
validation result (computed by the eight-component whitelist check) is included
in the response, and invalid components only produce a server-side warning. -/
theorem generate_success_response_contents (o : Oracles) (now : String)
    (userIntent existingCode sessionId : Option String) (st : VHistory)
    (plan : Json) (code explanation ts : String)
    (hui : jsTruthy userIntent = true)
    (hgen : (generateUI o (userIntent.getD "") existingCode now).1
        = .success plan code explanation ts) :
    (postGenerate o now userIntent existingCode sessionId st).1.status = 200
    ∧ (postGenerate o now userIntent existingCode sessionId st).1.code = some code
    ∧ (postGenerate o now userIntent existingCode sessionId st).1.validation
        = some (validateComponents code)
    ∧ (postGenerate o now userIntent existingCode sessionId st).1.success = some true
    ∧ (postGenerate o now userIntent existingCode sessionId st).1.plan = some plan
    ∧ (postGenerate o now userIntent existingCode sessionId st).1.explanation
        = some explanation
    ∧ (validateComponents code).allowedComponents
        = ["Button", "Card", "Input", "Table", "Modal", "Sidebar", "Navbar", "Chart"] := by
  unfold postGenerate
  rw [hui, if_neg (by simp)]
  simp only [hgen]
  refine ⟨?_, ?_, ?_, ?_, ?_, ?_, ?_⟩ <;> trivial

/-- Witness for the amended C1: the counterexample run itself — an invalid
component in the code, yet a 200 response carrying code and validation. -/
theorem generate_success_response_contents_witness :
    (postGenerate (constOracles "\x7b\x7d" "<Foo />" "done") "t0"
        (some "make a foo") none none []).1.status = 200
    ∧ (postGenerate (constOracles "\x7b\x7d" "<Foo />" "done") "t0"
        (some "make a foo") none none []).1.code = some "<Foo />" := by
  have h := generate_success_response_contents (constOracles "\x7b\x7d" "<Foo />" "done")
    "t0" (some "make a foo") none none [] (Json.obj []) "<Foo />" "done" "t0"
    rfl rfl
  exact ⟨h.1, h.2.1⟩

/-! ## C4: the generation pipeline is linear, in order -/

/-- C4: when every step succeeds, the pipeline makes exactly three model
calls, in order — planner on the user intent, generator on the planner's
plan, explainer on plan and generated code — then the response to
`POST /api/generate` carries the plan, the code, the explanation and the
regex-validator result on the generated code. -/
theorem generateUI_pipeline (o : Oracles) (ui : String) (ec : Option String)
    (now : String) (plan : Json) (code expl : String)
    (hp : (plannerAgent o ui ec).1 = .ok plan)
    (hg : (generatorAgent o plan ec).1 = .ok code)
    (he : (explainerAgent o plan code ui).1 = .ok expl) :
    generateUI o ui ec now
      = (.success plan code expl now,
         [.planner ui ec, .generator plan ec, .explainer plan code ui])
    ∧ (∀ (sid : Option String) (st : VHistory), ui ≠ "" →
        ((postGenerate o now (some ui) ec sid st).1.plan = some plan
         ∧ (postGenerate o now (some ui) ec sid st).1.code = some code
         ∧ (postGenerate o now (some ui) ec sid st).1.explanation = some expl
         ∧ (postGenerate o now (some ui) ec sid st).1.validation
             = some (validateComponents code)
         ∧ (postGenerate o now (some ui) ec sid st).1.status = 200)) := by
  have hp' : plannerAgent o ui ec = (.ok plan, [.planner ui ec]) := Prod.ext hp rfl
  have hg' : generatorAgent o plan ec = (.ok code, [.generator plan ec]) :=
    Prod.ext hg rfl
  have he' : explainerAgent o plan code ui = (.ok expl, [.explainer plan code ui]) :=
    Prod.ext he rfl
  have hgen : generateUI o ui ec now
      = (.success plan code expl now,
         [.planner ui ec, .generator plan ec, .explainer plan code ui]) := by
    unfold generateUI
    simp only [hp', hg', he']
    rfl
  refine ⟨hgen, ?_⟩
  intro sid st hui
  have hgen1 : (generateUI o ui ec now).1 = .success plan code expl now := by
    rw [hgen]
  unfold postGenerate
  rw [show jsTruthy (some ui) = true from by simp [jsTruthy, hui],
    if_neg (by simp)]
  simp only [Option.getD_some, hgen1]
  refine ⟨?_, ?_, ?_, ?_, ?_⟩ <;> trivial

/-- Witness for C4: a concrete all-successful run. -/
theorem generateUI_pipeline_witness :
    generateUI (constOracles "\x7b\x7d" "<Card />" "because") "make" none "t0"
      = (.success (Json.obj []) "<Card />" "because" "t0",
         [.planner "make" none, .generator (Json.obj []) none,
          .explainer (Json.obj []) "<Card />" "make"])
    ∧ (postGenerate (constOracles "\x7b\x7d" "<Card />" "because") "t0"
        (some "make") none none []).1.status = 200 := by
  have h := generateUI_pipeline (constOracles "\x7b\x7d" "<Card />" "because")
    "make" none "t0" (Json.obj []) "<Card />" "because" rfl rfl rfl
  exact ⟨h.1, (h.2 none [] (by decide)).2.2.2.2⟩

/-! ## C5: no retry, no further step after a failure, generic propagation -/

/-- C5: if an agent step fails, no model call is retried and no further step
runs — the call trace stops at the failing step and each call appears exactly
once; `generateUI` returns a failure carrying the error message (the original
message in `fullError`, the possibly-canonicalised one in `error`), and
`POST /api/generate` answers HTTP 500 whose body passes `generateUI`'s error
message through, leaving the history unchanged. -/
theorem generateUI_no_retry (o : Oracles) (ui : String) (ec : Option String)
    (now : String) (e : String) :
    ((plannerAgent o ui ec).1 = .error e →
      generateUI o ui ec now
        = (.failure (errorMessageFor e) e, [.planner ui ec]))
    ∧ (∀ plan, (plannerAgent o ui ec).1 = .ok plan →
        (generatorAgent o plan ec).1 = .error e →
        generateUI o ui ec now
          = (.failure (errorMessageFor e) e,
             [.planner ui ec, .generator plan ec]))
    ∧ (∀ plan code, (plannerAgent o ui ec).1 = .ok plan →
        (generatorAgent o plan ec).1 = .ok code →
        (explainerAgent o plan code ui).1 = .error e →
        generateUI o ui ec now
          = (.failure (errorMessageFor e) e,
             [.planner ui ec, .generator plan ec, .explainer plan code ui]))
    ∧ (∀ err full (sid : Option String) (st : VHistory), ui ≠ "" →
        (generateUI o ui ec now).1 = .failure err full →
        postGenerate o now (some ui) ec sid st
          = ({ status := 500, error := some err }, st)) := by
  refine ⟨?_, ?_, ?_, ?_⟩
  · intro hp
    have hp' : plannerAgent o ui ec = (.error e, [.planner ui ec]) := Prod.ext hp rfl
    unfold generateUI
    simp only [hp']
  · intro plan hp hg
    have hp' : plannerAgent o ui ec = (.ok plan, [.planner ui ec]) := Prod.ext hp rfl
    have hg' : generatorAgent o plan ec = (.error e, [.generator plan ec]) :=
      Prod.ext hg rfl
    unfold generateUI
    simp only [hp', hg']
    rfl
  · intro plan code hp hg he
    have hp' : plannerAgent o ui ec = (.ok plan, [.planner ui ec]) := Prod.ext hp rfl
    have hg' : generatorAgent o plan ec = (.ok code, [.generator plan ec]) :=
      Prod.ext hg rfl
    have he' : explainerAgent o plan code ui
        = (.error e, [.explainer plan code ui]) := Prod.ext he rfl
    unfold generateUI
    simp only [hp', hg', he']
    rfl
  · intro err full sid st hui hfail
    unfold postGenerate
    rw [show jsTruthy (some ui) = true from by simp [jsTruthy, hui],
      if_neg (by simp)]
    simp only [Option.getD_some, hfail]

/-- Witness for C5: a planner failure stops the pipeline after one call and is
mapped to a 500 passing the message through. -/
theorem generateUI_no_retry_witness :
    generateUI (failingPlannerOracles "boom") "x" none "t0"
      = (.failure "Planning failed: boom" "Planning failed: boom",
         [.planner "x" none])
    ∧ postGenerate (failingPlannerOracles "boom") "t0" (some "x") none none []
      = ({ status := 500, error := some "Planning failed: boom" }, []) := by
  have h := generateUI_no_retry (failingPlannerOracles "boom") "x" none "t0"
    "Planning failed: boom"
  have h1 := h.1 rfl
  have hf : (generateUI (failingPlannerOracles "boom") "x" none "t0").1
      = .failure "Planning failed: boom" "Planning failed: boom" := by
    rw [h1]
    rfl
  exact ⟨h1, h.2.2.2 _ _ none [] (by decide) hf⟩

/-! ## State-transition helper lemmas for POST /api/generate -/

/-- The list stored for a session after a successful generation: the old list
with the new entry pushed, trimmed to the last 20. -/
def pushTrimmed (st : VHistory) (sid ui code expl : String) (plan : Json)
    (ts : String) : List Entry :=
  let versions := (mapGet st sid).getD []
  let pushed := versions ++
    [{ version := versions.length + 1, userIntent := ui, code := code,
       explanation := expl, plan := plan, timestamp := ts,
       validation := validateComponents code }]
  if pushed.length > 20 then pushed.drop 1 else pushed

theorem postGenerate_falsy_state (o : Oracles) (now : String)
    (ui ec sd : Option String) (st : VHistory) (hui : jsTruthy ui = false) :
    (postGenerate o now ui ec sd st).2 = st := by
  unfold postGenerate
  rw [hui, if_pos (by simp)]

theorem postGenerate_failure_state (o : Oracles) (now : String)
    (ui ec sd : Option String) (st : VHistory) (err full : String)
    (hui : jsTruthy ui = true)
    (hgen : (generateUI o (ui.getD "") ec now).1 = .failure err full) :
    (postGenerate o now ui ec sd st).2 = st := by
  unfold postGenerate
  rw [hui, if_neg (by simp)]
  simp only [hgen]

theorem postGenerate_success_state (o : Oracles) (now : String)
    (ui ec sd : Option String) (st : VHistory) (plan : Json)
    (code expl ts : String)
    (hui : jsTruthy ui = true)
    (hgen : (generateUI o (ui.getD "") ec now).1 = .success plan code expl ts) :
    (postGenerate o now ui ec sd st).2
      = if jsTruthy sd = true then
          mapSet st (sd.getD "")
            (pushTrimmed st (sd.getD "") (ui.getD "") code expl plan ts)
        else st := by
  unfold postGenerate pushTrimmed
  rw [hui, if_neg (by simp)]
  simp only [hgen]

theorem getVersion_state (sid v : String) (st : VHistory) :
    (getVersion sid v st).2 = st := by
  have key : ∀ (fo : Option Entry),
      (match fo with
       | none =>
         ({ status := 404, error := some "Version not found" : ApiResponse }, st)
       | some e => ({ status := 200, entry := some e : ApiResponse }, st)).2 = st := by
    intro fo
    cases fo <;> rfl
  unfold getVersion
  cases jsParseInt v with
  | none => rfl
  | some n => exact key _

theorem pushTrimmed_length_le (st : VHistory) (sid ui code expl : String)
    (plan : Json) (ts : String)
    (h : ((mapGet st sid).getD []).length ≤ 20) :
    (pushTrimmed st sid ui code expl plan ts).length ≤ 20 := by
  unfold pushTrimmed
  by_cases hlen :
      (((mapGet st sid).getD []) ++
        [{ version := ((mapGet st sid).getD []).length + 1, userIntent := ui,
           code := code, explanation := expl, plan := plan, timestamp := ts,
           validation := validateComponents code : Entry }]).length > 20
  · rw [if_pos hlen]
    simp only [List.length_drop, List.length_append, List.length_singleton]
    omega
  · rw [if_neg hlen]
    omega

theorem pushTrimmed_getLast (st : VHistory) (sid ui code expl : String)
    (plan : Json) (ts : String) :
    (pushTrimmed st sid ui code expl plan ts).getLast?
      = some { version := ((mapGet st sid).getD []).length + 1, userIntent := ui,
               code := code, explanation := expl, plan := plan, timestamp := ts,
               validation := validateComponents code } := by
  unfold pushTrimmed
  rcases hold : (mapGet st sid).getD [] with _ | ⟨h0, t0⟩
  · simp
  · by_cases hlen :
        ((h0 :: t0) ++
          [{ version := (h0 :: t0).length + 1, userIntent := ui, code := code,
             explanation := expl, plan := plan, timestamp := ts,
             validation := validateComponents code : Entry }]).length > 20
    · rw [if_pos hlen]
      simp only [List.cons_append, List.drop_succ_cons, List.drop_zero]
      simp [List.getLast?_concat]
    · rw [if_neg hlen, List.getLast?_concat]

/-! ## C6: history is session-keyed and in-memory -/

/-- C6: a successful generation with a (truthy) session id stores exactly one
new entry — carrying the user intent, code, explanation, plan, timestamp and
validation — at the end of that session's list (trimmed to 20) and touches no
other session; `GET /api/history/:sessionId` returns one
`(version, userIntent, timestamp, validation)` summary per stored entry, in
storage order, and the empty list for a session with no stored history. -/
theorem history_session_keyed (o : Oracles) (now ui : String) (ec : Option String)
    (sid : String) (st : VHistory) (plan : Json) (code expl ts : String)
    (hui : ui ≠ "") (hsid : sid ≠ "")
    (hgen : (generateUI o ui ec now).1 = .success plan code expl ts) :
    (mapGet (postGenerate o now (some ui) ec (some sid) st).2 sid
        = some (pushTrimmed st sid ui code expl plan ts))
    ∧ (∀ t, t ≠ sid →
        mapGet (postGenerate o now (some ui) ec (some sid) st).2 t = mapGet st t)
    ∧ ((mapGet (postGenerate o now (some ui) ec (some sid) st).2 sid).getD
          []).getLast?
        = some { version := ((mapGet st sid).getD []).length + 1,
                 userIntent := ui, code := code, explanation := expl,
                 plan := plan, timestamp := ts,
                 validation := validateComponents code }
    ∧ (∀ (st2 : VHistory) (s2 : String),
        (getHistory s2 st2).1.versions
          = some (((mapGet st2 s2).getD []).map fun v =>
              (v.version, v.userIntent, v.timestamp, v.validation)))
    ∧ (∀ (st2 : VHistory) (s2 : String), mapGet st2 s2 = none →
        (getHistory s2 st2).1.versions = some []) := by
  have hst := postGenerate_success_state o now (some ui) ec (some sid) st plan
    code expl ts (by simp [jsTruthy, hui]) (by simpa using hgen)
  rw [if_pos (by simp [jsTruthy, hsid])] at hst
  simp only [Option.getD_some] at hst
  refine ⟨?_, ?_, ?_, ?_, ?_⟩
  · rw [hst, mapGet_mapSet_self]
  · intro t ht
    rw [hst, mapGet_mapSet_other _ _ _ _ ht]
  · rw [hst, mapGet_mapSet_self]
    simp only [Option.getD_some]
    exact pushTrimmed_getLast st sid ui code expl plan ts
  · intro st2 s2
    rfl
  · intro st2 s2 h2
    unfold getHistory
    rw [h2]
    rfl

/-- Witness for C6: one successful generation into an empty store creates the
session's one-entry history, and an unknown session reads back empty. -/
theorem history_session_keyed_witness :
    (mapGet (postGenerate (constOracles "\x7b\x7d" "<Card />" "fine") "t0"
        (some "hi") none (some "s1") []).2 "s1").isSome = true
    ∧ (getHistory "missing" []).1.versions = some [] := by
  have h := history_session_keyed (constOracles "\x7b\x7d" "<Card />" "fine")
    "t0" "hi" none "s1" [] (Json.obj []) "<Card />" "fine" "t0"
    (by decide) (by decide) rfl
  refine ⟨?_, h.2.2.2.2 [] "missing" rfl⟩
  rw [h.1]
  rfl

/-! ## C8: stored histories never exceed 20 entries -/

/-- C8: if every session's stored list has at most 20 entries, then after any
handled request (any route) every session's stored list still has at most 20
entries — the push in `POST /api/generate` is immediately followed by a
`shift()` whenever the list would exceed 20. -/
theorem history_length_invariant (req : ApiRequest) (st : VHistory)
    (hinv : ∀ s, ((mapGet st s).getD []).length ≤ 20) :
    ∀ s, ((mapGet (handle req st).2 s).getD []).length ≤ 20 := by
  intro s
  cases req with
  | history sid => exact hinv s
  | validate c =>
      cases c with
      | none => exact hinv s
      | some c0 =>
          show ((mapGet (postValidate (some c0) st).2 s).getD []).length ≤ 20
          unfold postValidate
          by_cases hc : jsTruthy (some c0) = true
          · rw [hc, if_neg (by simp)]
            exact hinv s
          · rw [Bool.not_eq_true] at hc
            rw [hc, if_pos (by simp)]
            exact hinv s
  | version sid v =>
      show ((mapGet (getVersion sid v st).2 s).getD []).length ≤ 20
      rw [getVersion_state]
      exact hinv s
  | generate o now ui ec sd =>
      show ((mapGet (postGenerate o now ui ec sd st).2 s).getD []).length ≤ 20
      by_cases hui : jsTruthy ui = true
      · cases hgen : (generateUI o (ui.getD "") ec now).1 with
        | failure err full =>
            rw [postGenerate_failure_state o now ui ec sd st err full hui hgen]
            exact hinv s
        | success plan code expl ts =>
            rw [postGenerate_success_state o now ui ec sd st plan code expl ts
              hui hgen]
            by_cases hsd : jsTruthy sd = true
            · rw [if_pos hsd]
              by_cases hs : s = sd.getD ""
              · rw [hs, mapGet_mapSet_self]
                simp only [Option.getD_some]
                exact pushTrimmed_length_le st (sd.getD "") (ui.getD "") code expl
                  plan ts (hinv _)
              · rw [mapGet_mapSet_other _ _ _ _ hs]
                exact hinv s
            · rw [if_neg hsd]
              exact hinv s
      · rw [Bool.not_eq_true] at hui
        rw [postGenerate_falsy_state o now ui ec sd st hui]
        exact hinv s

/-- Witness for C8: the bound holds concretely after one request on the empty
store. -/
theorem history_length_invariant_witness :
    ((mapGet (handle (.generate (constOracles "\x7b\x7d" "<Card />" "fine") "t0"
        (some "hi") none (some "s1")) []).2 "s1").getD []).length ≤ 20 :=
  history_length_invariant
    (.generate (constOracles "\x7b\x7d" "<Card />" "fine") "t0" (some "hi") none
      (some "s1")) []
    (fun s => by simp [mapGet]) "s1"

/-! ## C9: version numbers and GET /api/version

A new entry gets `version = versions.length + 1`, but after the 20-cap trims
the list the length stays 20, so the 22nd successful generation of a session
assigns version 21 *again*: version numbers are not pairwise distinct. -/

/-- The effect of one successful generation on a session's version-number
list: push `length + 1`, trim to the last 20. -/
def vstep (vs : List Nat) : List Nat :=
  let pushed := vs ++ [vs.length + 1]
  if pushed.length > 20 then pushed.drop 1 else pushed

/-- `n` identical successful generations into session `sess` of an initially
empty server. -/
def repeatGen (n : Nat) : VHistory :=
  (fun st => (postGenerate (constOracles "\x7b\x7d" "<Card />" "ok") "t0"
      (some "x") none (some "sess") st).2)^[n] []

theorem pushTrimmed_map_version (st : VHistory) (sid ui code expl : String)
    (plan : Json) (ts : String) :
    (pushTrimmed st sid ui code expl plan ts).map Entry.version
      = vstep (((mapGet st sid).getD []).map Entry.version) := by
  unfold pushTrimmed vstep
  simp only [List.length_append, List.length_map, List.length_singleton]
  by_cases hlen : ((mapGet st sid).getD []).length + 1 > 20
  · rw [if_pos hlen, if_pos hlen]
    rw [List.map_drop]
    simp [List.map_append]
  · rw [if_neg hlen, if_neg hlen]
    simp [List.map_append]

/-- `getVersion` when the version parameter parses to `n`. -/
theorem getVersion_eq_some (sid vp : String) (st : VHistory) (n : Int)
    (hp : jsParseInt vp = some n) :
    getVersion sid vp st
      = match List.find? (fun e => decide ((e.version : Int) = n))
            ((mapGet st sid).getD []) with
        | none => ({ status := 404, error := some "Version not found" }, st)
        | some e => ({ status := 200, entry := some e }, st) := by
  unfold getVersion
  rw [hp]
  rfl

/-- `getVersion` when the version parameter does not parse (NaN). -/
theorem getVersion_eq_none (sid vp : String) (st : VHistory)
    (hp : jsParseInt vp = none) :
    getVersion sid vp st
      = ({ status := 404, error := some "Version not found" }, st) := by
  unfold getVersion
  rw [hp]

/-- C9 counterexample: after 22 successful generations in one session the
stored version numbers are `[3, …, 21, 21]` — version 21 occurs twice, so they
are not pairwise distinct and the entry with version 21 is not unique. -/
theorem version_numbers_collide :
    (((mapGet (repeatGen 22) "sess").getD []).map Entry.version)
      = [3, 4, 5, 6, 7, 8, 9, 10, 11, 12, 13, 14, 15, 16, 17, 18, 19, 20, 21, 21]
    ∧ ¬ (((mapGet (repeatGen 22) "sess").getD []).map Entry.version).Nodup := by
  have h1 : (((mapGet (repeatGen 22) "sess").getD []).map Entry.version)
      = [3, 4, 5, 6, 7, 8, 9, 10, 11, 12, 13, 14, 15, 16, 17, 18, 19, 20, 21, 21] := by
    decide
  refine ⟨h1, ?_⟩
  rw [h1]
  decide

/-- C9 amended: one successful generation maps a session's version-number list
through `vstep` (push `length+1`, trim to 20), so the numbers stay pairwise
distinct only for the first 21 successful generations of a session (from the
22nd on, version 21 repeats).  `GET /api/version/:sessionId/:version` returns
the *first* stored entry whose `version` equals `parseInt(:version)` and 404
exactly when no stored entry matches (in particular for non-numeric versions
and unknown sessions). -/
theorem version_lookup_amended :
    (∀ (o : Oracles) (now ui : String) (ec : Option String) (sid : String)
        (st : VHistory) (plan : Json) (code expl ts : String),
        ui ≠ "" → sid ≠ "" →
        (generateUI o ui ec now).1 = .success plan code expl ts →
        (((mapGet (postGenerate o now (some ui) ec (some sid) st).2 sid).getD
            []).map Entry.version)
          = vstep (((mapGet st sid).getD []).map Entry.version))
    ∧ (∀ n, n ≤ 21 → (vstep^[n] []).Nodup)
    ∧ (∀ (st : VHistory) (sid vp : String) (e : Entry),
        (getVersion sid vp st).1.entry = some e →
        jsParseInt vp = some (e.version : Int)
        ∧ (getVersion sid vp st).1.status = 200
        ∧ ∃ l1 l2, (mapGet st sid).getD [] = l1 ++ e :: l2
            ∧ ∀ x ∈ l1, (x.version : Int) ≠ (e.version : Int))
    ∧ (∀ (st : VHistory) (sid vp : String),
        (getVersion sid vp st).1.status = 404 ↔
          (match jsParseInt vp with
           | none => True
           | some n => ∀ x ∈ (mapGet st sid).getD [], (x.version : Int) ≠ n)) := by
  refine ⟨?_, by decide, ?_, ?_⟩
  · intro o now ui ec sid st plan code expl ts hui hsid hgen
    have hst := postGenerate_success_state o now (some ui) ec (some sid) st plan
      code expl ts (by simp [jsTruthy, hui]) (by simpa using hgen)
    rw [if_pos (by simp [jsTruthy, hsid])] at hst
    simp only [Option.getD_some] at hst
    rw [hst, mapGet_mapSet_self]
    simp only [Option.getD_some]
    exact pushTrimmed_map_version st sid ui code expl plan ts
  · intro st sid vp e h
    cases hp : jsParseInt vp with
    | none =>
        rw [getVersion_eq_none sid vp st hp] at h
        simp at h
    | some n =>
        rw [getVersion_eq_some sid vp st n hp] at h
        cases hf : List.find? (fun x => decide ((x.version : Int) = n))
            ((mapGet st sid).getD []) with
        | none =>
            rw [hf] at h
            simp at h
        | some e0 =>
            rw [hf] at h
            have he0 : some e0 = some e := h
            have he0' : e0 = e := Option.some.inj he0
            subst he0'
            obtain ⟨hpe, l1, l2, hsplit, hl1⟩ := List.find?_eq_some.mp hf
            have hn : (e0.version : Int) = n := of_decide_eq_true hpe
            refine ⟨by rw [hn], ?_, l1, l2, hsplit, ?_⟩
            · rw [getVersion_eq_some sid vp st n hp, hf]
            · intro x hx
              have hbang := hl1 x hx
              rw [hn]
              intro hcon
              rw [hcon] at hbang
              simp at hbang
  · intro st sid vp
    cases hp : jsParseInt vp with
    | none =>
        rw [getVersion_eq_none sid vp st hp]
        simp
    | some n =>
        rw [getVersion_eq_some sid vp st n hp]
        cases hf : List.find? (fun x => decide ((x.version : Int) = n))
            ((mapGet st sid).getD []) with
        | none =>
            constructor
            · intro _ x hx hcon
              exact (List.find?_eq_none.mp hf x hx) (decide_eq_true hcon)
            · intro _
              rfl
        | some e0 =>
            constructor
            · intro hcon
              exact absurd (show (200 : Nat) = 404 from hcon) (by decide)
            · intro hall
              exfalso
              have hpe := List.find?_some hf
              have hmem := List.mem_of_find?_eq_some hf
              exact hall e0 hmem (of_decide_eq_true hpe)

/-- Witness for the amended C9: distinctness after 21 generations, and the
version-list step on a fresh session. -/
theorem version_lookup_amended_witness :
    (vstep^[21] []).Nodup
    ∧ (((mapGet (postGenerate (constOracles "\x7b\x7d" "<Card />" "ok") "t0"
          (some "x") none (some "sess") []).2 "sess").getD []).map Entry.version)
        = vstep [] := by
  refine ⟨version_lookup_amended.2.1 21 (by decide), ?_⟩
  have h := version_lookup_amended.1 (constOracles "\x7b\x7d" "<Card />" "ok")
    "t0" "x" none "sess" [] (Json.obj []) "<Card />" "ok" "t0"
    (by decide) (by decide) rfl
  exact h

/-! ## C7: post-processing of model output

The source removes fence markers *globally* (every occurrence in the string,
scanning left to right) once the trimmed text starts with a fence; the claim
says it removes the *leading* fences.  These disagree when a fence marker
occurs inside the payload. -/

/-- The claim's reading of the planner clean-up, stated from the claim's words
for comparison with the source-derived `plannerClean`: trim, then remove only
the *leading* markdown code fence (` ```json ` or ` ``` `, with its optional
newline) and the matching trailing fence. -/
def plannerCleanClaimed (s : String) : String :=
  let t := jsTrimL s.data
  let t1 := if startsWithL t "```json".data then dropNl (t.drop 7)
            else if startsWithL t "```".data then dropNl (t.drop 3)
            else t
  String.mk (stripEndFence t1)

/-- C7 counterexample: on the model response `"```json\n{"a": 1```}\n```"` the
source removes the *interior* fence as well, yielding parseable JSON, whereas
removing only the leading/trailing fences (the claim as stated) leaves
`{"a": 1```}` — not valid JSON, so `JSON.parse` of the claimed clean-up fails
while `plannerAgent` succeeds. -/
theorem planner_strips_fences_globally :
    (plannerAgent (constOracles "```json\n\x7b\"a\": 1```\x7d\n```" "g" "e")
        "u" none).1 = .ok (Json.obj [("a", Json.num "1")])
    ∧ plannerClean "```json\n\x7b\"a\": 1```\x7d\n```" = "\x7b\"a\": 1\x7d\n"
    ∧ plannerCleanClaimed "```json\n\x7b\"a\": 1```\x7d\n```"
        = "\x7b\"a\": 1```\x7d\n"
    ∧ (match jsonParse (plannerCleanClaimed "```json\n\x7b\"a\": 1```\x7d\n```") with
       | .ok _ => false
       | .error _ => true) = true := by
  exact ⟨rfl, rfl, rfl, rfl⟩

/-! Machinery for the amended C7: behaviour of the global fence removal. -/

theorem stripAllAux_cons (step : List Char → Option (List Char)) (f : Nat)
    (c : Char) (rest : List Char) :
    stripAllAux step (f + 1) (c :: rest)
      = match step (c :: rest) with
        | some r => stripAllAux step f r
        | none => c :: stripAllAux step f rest := rfl

theorem isPrefixOf_cons_false (a b : Char) (as bs : List Char) (h : ¬ a = b) :
    (a :: as).isPrefixOf (b :: bs) = false := by
  show (a == b && as.isPrefixOf bs) = false
  rw [show (a == b) = false from by simp [h]]
  rfl

/-- None of the three fence patterns can match at a non-backtick character. -/
theorem step_none_of_head_ne (c : Char) (rest : List Char) (h : c ≠ '`') :
    stepJsonFence (c :: rest) = none ∧ stepTicks (c :: rest) = none
      ∧ stepTicksLang (c :: rest) = none := by
  have hp7 : startsWithL (c :: rest) "```json".data = false := by
    unfold startsWithL
    exact isPrefixOf_cons_false '`' c _ _ (fun hh => h hh.symm)
  have hp3 : startsWithL (c :: rest) "```".data = false := by
    unfold startsWithL
    exact isPrefixOf_cons_false '`' c _ _ (fun hh => h hh.symm)
  refine ⟨?_, ?_, ?_⟩
  · unfold stepJsonFence
    rw [hp7]
    rfl
  · unfold stepTicks
    rw [hp3]
    rfl
  · unfold stepTicksLang
    rw [hp3]
    rfl

/-- The global removal scan passes a backtick-free block through untouched. -/
theorem stripAllAux_pass (step : List Char → Option (List Char))
    (l1 : List Char) (hl1 : ∀ c ∈ l1, c ≠ '`')
    (hstep : ∀ c rest, c ≠ '`' → step (c :: rest) = none) :
    ∀ (f : Nat) (l2 : List Char),
      stripAllAux step (l1.length + f) (l1 ++ l2) = l1 ++ stripAllAux step f l2 := by
  induction l1 with
  | nil => intro f l2; simp
  | cons c cs ih =>
      intro f l2
      have hc : c ≠ '`' := hl1 c (List.mem_cons_self c cs)
      have hlen : (c :: cs).length + f = (cs.length + f) + 1 := by
        simp [List.length_cons]
        omega
      rw [List.cons_append, hlen, stripAllAux_cons,
        hstep c (cs ++ l2) hc]
      show c :: stripAllAux step (cs.length + f) (cs ++ l2)
        = c :: (cs ++ stripAllAux step f l2)
      rw [ih (fun x hx => hl1 x (List.mem_cons_of_mem c hx)) f l2]

theorem dropWhile_head_false (p : Char → Bool) (l : List Char)
    (h : ∀ c, l.head? = some c → p c = false) : l.dropWhile p = l := by
  cases l with
  | nil => rfl
  | cons c rest =>
      rw [List.dropWhile_cons, h c rfl]
      simp

/-- JS `trim` is the identity when the text neither starts nor ends with
whitespace. -/
theorem jsTrimL_id (l : List Char)
    (h1 : ∀ c, l.head? = some c → isJsWs c = false)
    (h2 : ∀ c, l.getLast? = some c → isJsWs c = false) : jsTrimL l = l := by
  unfold jsTrimL
  rw [dropWhile_head_false _ _ h1,
    dropWhile_head_false _ _ (fun c hc => h2 c (by rwa [List.head?_reverse] at hc))]
  exact List.reverse_reverse l

/-- Global fence removal on a fence-wrapped, backtick-free payload, planner
variant: ` ```json\n<t>\n``` ` cleans to `<t>\n`. -/
theorem plannerClean_wrapped (t : String) (ht : ∀ c ∈ t.data, c ≠ '`') :
    plannerClean ("```json\n" ++ t ++ "\n```") = t ++ "\n" := by
  obtain ⟨td⟩ := t
  have hdata : ("```json\n" ++ String.mk td ++ "\n```").data
      = '`' :: '`' :: '`' :: 'j' :: 's' :: 'o' :: 'n' :: '\n'
          :: (td ++ ['\n', '`', '`', '`']) := by
    rw [String.data_append, String.data_append]
    show (['`', '`', '`', 'j', 's', 'o', 'n', '\n'] ++ td) ++ ['\n', '`', '`', '`'] = _
    simp
  have hne : ∀ c ∈ td ++ ['\n'], c ≠ '`' := by
    intro c hc
    rcases List.mem_append.mp hc with h | h
    · exact ht c h
    · rw [List.mem_singleton.mp h]
      decide
  have hstep1 : ∀ c rest, c ≠ '`' → stepJsonFence (c :: rest) = none :=
    fun c rest h => (step_none_of_head_ne c rest h).1
  have hstep2 : ∀ c rest, c ≠ '`' → stepTicks (c :: rest) = none :=
    fun c rest h => (step_none_of_head_ne c rest h).2.1
  have hhead : ∀ c,
      ('`' :: '`' :: '`' :: 'j' :: 's' :: 'o' :: 'n' :: '\n'
        :: (td ++ ['\n', '`', '`', '`'])).head? = some c → isJsWs c = false := by
    intro c hc
    rw [← Option.some.inj hc]
    decide
  have hlast : ∀ c,
      ('`' :: '`' :: '`' :: 'j' :: 's' :: 'o' :: 'n' :: '\n'
        :: (td ++ ['\n', '`', '`', '`'])).getLast? = some c → isJsWs c = false := by
    intro c hc
    rw [show ('`' :: '`' :: '`' :: 'j' :: 's' :: 'o' :: 'n' :: '\n'
        :: (td ++ ['\n', '`', '`', '`']))
        = (['`', '`', '`', 'j', 's', 'o', 'n', '\n'] ++ td) ++ ['\n', '`', '`', '`']
      from by simp] at hc
    rw [List.getLast?_append] at hc
    rw [← Option.some.inj hc]
    decide
  have hstrip1 : stripAll stepJsonFence
      ('`' :: '`' :: '`' :: 'j' :: 's' :: 'o' :: 'n' :: '\n'
        :: (td ++ ['\n', '`', '`', '`']))
      = (td ++ ['\n']) ++ ['`', '`', '`'] := by
    unfold stripAll
    rw [show ('`' :: '`' :: '`' :: 'j' :: 's' :: 'o' :: 'n' :: '\n'
        :: (td ++ ['\n', '`', '`', '`'])).length = ((td ++ ['\n']).length + 10) + 1
      from by simp]
    rw [stripAllAux_cons]
    rw [show stepJsonFence ('`' :: '`' :: '`' :: 'j' :: 's' :: 'o' :: 'n' :: '\n'
        :: (td ++ ['\n', '`', '`', '`'])) = some (td ++ ['\n', '`', '`', '`'])
      from rfl]
    show stripAllAux stepJsonFence ((td ++ ['\n']).length + 10)
        (td ++ ['\n', '`', '`', '`']) = (td ++ ['\n']) ++ ['`', '`', '`']
    rw [show td ++ ['\n', '`', '`', '`'] = (td ++ ['\n']) ++ ['`', '`', '`']
      from by simp]
    rw [stripAllAux_pass stepJsonFence (td ++ ['\n']) hne hstep1 10 ['`', '`', '`']]
    rfl
  have hstrip2 : stripAll stepTicks ((td ++ ['\n']) ++ ['`', '`', '`'])
      = td ++ ['\n'] := by
    unfold stripAll
    rw [show ((td ++ ['\n']) ++ ['`', '`', '`']).length = (td ++ ['\n']).length + 3
      from by simp]
    rw [stripAllAux_pass stepTicks (td ++ ['\n']) hne hstep2 3 ['`', '`', '`']]
    rw [show stripAllAux stepTicks 3 ['`', '`', '`'] = [] from rfl, List.append_nil]
  have hsw2 : ¬ (startsWithL (td ++ ['\n']) "```".data = true) := by
    cases td with
    | nil =>
        intro hh
        exact absurd hh (by decide)
    | cons c cs =>
        rw [List.cons_append]
        unfold startsWithL
        rw [isPrefixOf_cons_false '`' c _ _
          (fun hh => (ht c (List.mem_cons_self c cs)) hh.symm)]
        intro hh
        cases hh
  unfold plannerClean
  rw [hdata, jsTrimL_id _ hhead hlast]
  unfold plannerPass1
  rw [if_pos (show startsWithL ('`' :: '`' :: '`' :: 'j' :: 's' :: 'o' :: 'n' :: '\n'
      :: (td ++ ['\n', '`', '`', '`'])) "```json".data = true from rfl),
    hstrip1, hstrip2]
  unfold plannerPass2
  rw [if_neg hsw2]
  rfl

/-- Global fence removal on a fence-wrapped, backtick-free payload, generator
variant: ` ```\n<t>\n``` ` cleans to `<t>\n`. -/
theorem generatorClean_wrapped (t : String) (ht : ∀ c ∈ t.data, c ≠ '`') :
    generatorClean ("```\n" ++ t ++ "\n```") = t ++ "\n" := by
  obtain ⟨td⟩ := t
  have hdata : ("```\n" ++ String.mk td ++ "\n```").data
      = '`' :: '`' :: '`' :: '\n' :: (td ++ ['\n', '`', '`', '`']) := by
    rw [String.data_append, String.data_append]
    show (['`', '`', '`', '\n'] ++ td) ++ ['\n', '`', '`', '`'] = _
    simp
  have hne : ∀ c ∈ td ++ ['\n'], c ≠ '`' := by
    intro c hc
    rcases List.mem_append.mp hc with h | h
    · exact ht c h
    · rw [List.mem_singleton.mp h]
      decide
  have hstep3 : ∀ c rest, c ≠ '`' → stepTicksLang (c :: rest) = none :=
    fun c rest h => (step_none_of_head_ne c rest h).2.2
  have hhead : ∀ c,
      ('`' :: '`' :: '`' :: '\n' :: (td ++ ['\n', '`', '`', '`'])).head? = some c →
        isJsWs c = false := by
    intro c hc
    rw [← Option.some.inj hc]
    decide
  have hlast : ∀ c,
      ('`' :: '`' :: '`' :: '\n' :: (td ++ ['\n', '`', '`', '`'])).getLast? = some c →
        isJsWs c = false := by
    intro c hc
    rw [show ('`' :: '`' :: '`' :: '\n' :: (td ++ ['\n', '`', '`', '`']))
        = (['`', '`', '`', '\n'] ++ td) ++ ['\n', '`', '`', '`'] from by simp] at hc
    rw [List.getLast?_append] at hc
    rw [← Option.some.inj hc]
    decide
  have hstrip : stripAll stepTicksLang
      ('`' :: '`' :: '`' :: '\n' :: (td ++ ['\n', '`', '`', '`']))
      = td ++ ['\n'] := by
    unfold stripAll
    rw [show ('`' :: '`' :: '`' :: '\n' :: (td ++ ['\n', '`', '`', '`'])).length
        = ((td ++ ['\n']).length + 6) + 1 from by simp]
    rw [stripAllAux_cons]
    rw [show stepTicksLang ('`' :: '`' :: '`' :: '\n' :: (td ++ ['\n', '`', '`', '`']))
        = some (td ++ ['\n', '`', '`', '`']) from rfl]
    show stripAllAux stepTicksLang ((td ++ ['\n']).length + 6)
        (td ++ ['\n', '`', '`', '`']) = td ++ ['\n']
    rw [show td ++ ['\n', '`', '`', '`'] = (td ++ ['\n']) ++ ['`', '`', '`']
      from by simp]
    rw [stripAllAux_pass stepTicksLang (td ++ ['\n']) hne hstep3 6 ['`', '`', '`']]
    rw [show stripAllAux stepTicksLang 6 ['`', '`', '`'] = [] from rfl,
      List.append_nil]
  have hrev : (td ++ ['\n']).reverse = '\n' :: td.reverse := by simp
  have hend : stripEndFence (td ++ ['\n']) = td ++ ['\n'] := by
    unfold stripEndFence
    rw [hrev]
    have hc1 : ¬ (startsWithL ('\n' :: td.reverse) ['\n', '`', '`', '`'] = true) := by
      cases htd : td.reverse with
      | nil =>
          intro hh
          exact absurd hh (by decide)
      | cons c cs =>
          intro hh
          have hcrev : c ∈ td.reverse := by
            rw [htd]
            exact List.mem_cons_self c cs
          have hcmem : c ∈ td := List.mem_reverse.mp hcrev
          have hpf : List.isPrefixOf ['`', '`', '`'] (c :: cs) = true := by
            have hh' := hh
            unfold startsWithL at hh'
            simpa [List.isPrefixOf] using hh'
          rw [isPrefixOf_cons_false '`' c _ _
            (fun hh2 => (ht c hcmem) hh2.symm)] at hpf
          cases hpf
    have hc2 : ¬ (startsWithL ('\n' :: td.reverse) ['`', '`', '`'] = true) := by
      intro hh
      unfold startsWithL at hh
      rw [isPrefixOf_cons_false '`' '\n' _ _ (by decide)] at hh
      cases hh
    rw [if_neg hc1, if_neg hc2]
  unfold generatorClean
  rw [hdata, jsTrimL_id _ hhead hlast]
  rw [if_pos (show startsWithL ('`' :: '`' :: '`' :: '\n'
      :: (td ++ ['\n', '`', '`', '`'])) "```".data = true from rfl)]
  rw [hstrip, hend]
  rfl

/-- C7 amended: post-processing of model output is trim, *global* fence-marker
removal (conditioned on the trimmed text starting with a fence — every
occurrence throughout the string is removed, not only the leading one) and,
for the planner, `JSON.parse` whose failure surfaces as a `Planning failed`
error.  When the trimmed response does not start with a fence both agents
leave it unchanged; fence-wrapped backtick-free payloads are unwrapped. -/
theorem agent_postprocessing (o : Oracles) (ui : String) (ec : Option String) :
    (∀ raw v, o.plannerResp = .ok raw → jsonParse (plannerClean raw) = .ok v →
        (plannerAgent o ui ec).1 = .ok v)
    ∧ (∀ raw e, o.plannerResp = .ok raw → jsonParse (plannerClean raw) = .error e →
        (plannerAgent o ui ec).1 = .error ("Planning failed: " ++ e))
    ∧ (∀ plan raw, o.generatorResp plan = .ok raw →
        (generatorAgent o plan ec).1 = .ok (generatorClean raw))
    ∧ (∀ s : String, startsWithL (jsTrimL s.data) "```".data = false →
        plannerClean s = jsTrim s ∧ generatorClean s = jsTrim s)
    ∧ (∀ t : String, (∀ c ∈ t.data, c ≠ '`') →
        plannerClean ("```json\n" ++ t ++ "\n```") = t ++ "\n"
        ∧ generatorClean ("```\n" ++ t ++ "\n```") = t ++ "\n")
    ∧ generatorClean "```jsx\nconst x = 1;\n```" = "const x = 1;\n"
    ∧ plannerClean "```json\n\x7b\"a\": \"b```c\"\x7d\n```"
        = "\x7b\"a\": \"bc\"\x7d\n" := by
  refine ⟨?_, ?_, ?_, ?_, ?_, rfl, rfl⟩
  · intro raw v hr hj
    unfold plannerAgent
    simp only [hr, hj]
  · intro raw e hr hj
    unfold plannerAgent
    simp only [hr, hj]
  · intro plan raw hr
    unfold generatorAgent
    simp only [hr]
  · intro s h3
    have h7 : startsWithL (jsTrimL s.data) "```json".data = false := by
      rw [Bool.eq_false_iff]
      intro hc
      have hpre : "```".data <+: jsTrimL s.data := by
        refine List.IsPrefix.trans ?_ (List.isPrefixOf_iff_prefix.mp hc)
        decide
      have h33 : startsWithL (jsTrimL s.data) "```".data = true :=
        List.isPrefixOf_iff_prefix.mpr hpre
      rw [h33] at h3
      cases h3
    constructor
    · unfold plannerClean plannerPass1
      rw [if_neg (by rw [h7]; intro hh; cases hh)]
      unfold plannerPass2
      rw [if_neg (by rw [h3]; intro hh; cases hh)]
      rfl
    · unfold generatorClean
      rw [if_neg (by rw [h3]; intro hh; cases hh)]
      rfl
  · intro t ht
    exact ⟨plannerClean_wrapped t ht, generatorClean_wrapped t ht⟩

/-- Witness for the amended C7: a fence-wrapped planner response parses and the
no-fence case returns the trimmed text unchanged. -/
theorem agent_postprocessing_witness :
    (plannerAgent (constOracles "```json\n\x7b\x7d\n```" "g" "e") "u" none).1
      = .ok (Json.obj [])
    ∧ plannerClean " \x7b\x7d " = "\x7b\x7d"
    ∧ plannerClean "```json\n\x7b\x7d\n```" = "\x7b\x7d\n" := by
  have h := agent_postprocessing (constOracles "```json\n\x7b\x7d\n```" "g" "e")
    "u" none
  refine ⟨h.1 "```json\n\x7b\x7d\n```" (Json.obj []) rfl rfl, ?_, ?_⟩
  · exact ((h.2.2.2.1 " \x7b\x7d " (by decide)).1).trans rfl
  · exact (h.2.2.2.2.1 "\x7b\x7d" (by decide)).1

end CodeWeaver2
